import Mathlib

/-!
Verification development for the swap-manager utility (src/src/main.rs).

The program is shallowly embedded: pure helper functions of the source
(`parse_human_size`, `human_readable_bytes`, the `/proc/swaps` accumulation of
`show_swaps`, the `/etc/fstab` persistence step of `set_swap`) become pure Lean
functions over `List Char` / `ℕ`, and the effectful command interpreter
(`main`'s token loop, `set_swap`, `empty_swap`, `show_swaps`) becomes an
`EStateM` computation over an environment that supplies the outcomes of
subprocess spawns and filesystem operations, recording every external effect
as an event.  Machine integers (`u64`) are modelled as `ℕ` with explicit
`% 2 ^ 64` where the source can wrap, and `f64` is modelled by exact rationals
together with an explicit round-to-53-bit-significand conversion `toF64`.
-/

/-- Models the uppercasing Rust's `str::to_uppercase` applies to ASCII
characters: lowercase ASCII letters map to their uppercase form, every other
character is kept unchanged.  (Non-ASCII characters with multi-character
uppercasings never produce an ASCII digit or one of `K`/`M`/`G`/`T`, so they
land in the same error branch either way.) -/
def asciiUpper (c : Char) : Char :=
  if 97 ≤ c.toNat ∧ c.toNat ≤ 122 then Char.ofNat (c.toNat - 32) else c

/-- Strips one leading plus sign, mirroring the sign handling of Rust's
`u64::from_str` (which accepts an optional leading `+`). -/
def stripPlus : List Char → List Char
  | '+' :: rest => rest
  | s => s

/-- Numeric value of a digit string, most significant digit first. -/
def digitsVal (ds : List Char) : ℕ :=
  ds.foldl (fun a c => a * 10 + (c.toNat - 48)) 0

/-- Models Rust's `str::parse::<u64>` (`u64::from_str`): an optional leading
plus sign followed by one or more ASCII digits whose value fits in 64 bits;
every other input (including a value above `2 ^ 64 - 1`) is a parse error. -/
def parseU64 (s : List Char) : Option ℕ :=
  let ds := stripPlus s
  if ds.isEmpty then none
  else if ds.all Char.isDigit then
    if digitsVal ds < 2 ^ 64 then some (digitsVal ds) else none
  else none

/-- Error cases of `parse_human_size` (src/src/main.rs lines 124-150), one
constructor per distinct `bail!` / error site: empty input, unknown suffix
character, empty numeric part, failure of the `u64` parse of the numeric part,
and checked-multiplication overflow. -/
inductive ParseErr where
  | emptySize
  | unknownSuffix
  | malformed
  | numParse
  | overflow
  deriving DecidableEq, Repr

/-- Tail of `parse_human_size` (src/src/main.rs lines 143-149): the code after
the suffix `match`, shared by all its arms — reject an empty numeric part,
parse it as `u64`, and multiply by the selected multiplier with an overflow
check (`checked_mul`). -/
def parseTail (numStr : List Char) (mult : ℕ) : Except ParseErr ℕ :=
  if numStr.isEmpty then .error .malformed
  else
    match parseU64 numStr with
    | none => .error .numParse
    | some n => if n * mult < 2 ^ 64 then .ok (n * mult) else .error .overflow

/-- Embedding of `parse_human_size` (src/src/main.rs lines 124-150): uppercase
the token, `match` on its last character to select the numeric part and the
power-of-1024 multiplier (`K`/`M`/`G`/`T`; a trailing digit means multiplier 1
on the whole token; anything else is an unknown-suffix error), then run the
shared tail `parseTail`. -/
def parseHumanSize (s : List Char) : Except ParseErr ℕ :=
  if s.isEmpty then .error .emptySize
  else
    let ls := s.map asciiUpper
    let lastc := ls.getLastD ' '
    if lastc = 'K' then parseTail ls.dropLast 1024
    else if lastc = 'M' then parseTail ls.dropLast (1024 ^ 2)
    else if lastc = 'G' then parseTail ls.dropLast (1024 ^ 3)
    else if lastc = 'T' then parseTail ls.dropLast (1024 ^ 4)
    else if lastc.isDigit then parseTail ls 1
    else .error .unknownSuffix

/-- Multiplier selected by an optional size-suffix character, written the way
the specification describes it: case-insensitive `K`/`M`/`G`/`T` choose the
powers of 1024, no suffix means raw bytes. -/
def suffixMult : Option Char → Option ℕ
  | none => some 1
  | some c =>
    if c = 'K' ∨ c = 'k' then some 1024
    else if c = 'M' ∨ c = 'm' then some (1024 ^ 2)
    else if c = 'G' ∨ c = 'g' then some (1024 ^ 3)
    else if c = 'T' ∨ c = 't' then some (1024 ^ 4)
    else none

/-- Rounds a rational to the nearest integer with ties going to the even
integer, the rounding used when a `u64` is converted to `f64`. -/
def rneInt (q : ℚ) : ℤ :=
  let f := Int.floor q
  if q - f < 1 / 2 then f
  else if 1 / 2 < q - f then f + 1
  else if f % 2 = 0 then f else f + 1

/-- Models the conversion `n as f64` of the source exactly: values below
`2 ^ 53` are representable and kept, larger values are rounded to a 53-bit
significand (round to nearest, ties to even).  All later operations of
`human_readable_bytes` (comparisons with 1024 and divisions by 1024) are exact
in `f64`, so the rest of the function can compute with rationals. -/
def toF64 (n : ℕ) : ℚ :=
  if n < 2 ^ 53 then (n : ℚ)
  else
    let e : ℕ := n.log2 - 52
    (rneInt ((n : ℚ) / 2 ^ e) : ℚ) * 2 ^ e

/-- Models Rust's `format!("{:.2}", v)` for the nonnegative exact binary values
produced by `human_readable_bytes`: round `100 * v` to the nearest integer and
print with two decimal digits.  A tie would need `v = (2k+1)/200`, which is
not a binary rational, so no tie ever arises and half-up rounding (`round`)
agrees with the ties-to-even rounding of the float formatter. -/
def fmt2 (q : ℚ) : String :=
  let c : ℤ := round (100 * q)
  let ip := c / 100
  let fp := (c % 100).toNat
  toString ip ++ "." ++ (if fp < 10 then "0" else "") ++ toString fp

/-- Unit names of `human_readable_bytes` (src/src/main.rs line 323). -/
def unitsList : List String := ["B", "KiB", "MiB", "GiB", "TiB"]

/-- One iteration of the scaling loop of `human_readable_bytes`
(src/src/main.rs lines 326-329): while the value is at least 1024 and a larger
unit exists (`idx + 1 < units.len()` with `units.len() = 5`), divide by 1024
and advance the unit index. -/
def hrbStep (vi : ℚ × ℕ) : ℚ × ℕ :=
  if 1024 ≤ vi.1 ∧ vi.2 + 1 < 5 then (vi.1 / 1024, vi.2 + 1) else vi

/-- Embedding of `human_readable_bytes` (src/src/main.rs lines 321-335).  The
`while` loop runs at most four times (the index check stops it at the last
unit), so it is unrolled into four applications of `hrbStep`; the fourth
application is a fixed point whenever the loop would have stopped earlier. -/
def humanReadableBytes (n : ℕ) : String :=
  let r := hrbStep (hrbStep (hrbStep (hrbStep (toF64 n, 0))))
  if r.2 = 0 then toString n ++ " " ++ unitsList.getD 0 ""
  else fmt2 r.1 ++ " " ++ unitsList.getD r.2 ""

/-- Helper for `splitWs`: accumulates the current field (reversed) while
scanning. -/
def splitWsAux : List Char → List Char → List (List Char)
  | [], acc => if acc.isEmpty then [] else [acc.reverse]
  | c :: rest, acc =>
    if c.isWhitespace then
      if acc.isEmpty then splitWsAux rest [] else acc.reverse :: splitWsAux rest []
    else splitWsAux rest (c :: acc)

/-- Models Rust's `str::split_whitespace` for the ASCII whitespace that occurs
in `/proc/swaps`: maximal runs of non-whitespace characters, empty fields
dropped. -/
def splitWs (s : List Char) : List (List Char) :=
  splitWsAux s []

/-- Splits at every newline character, keeping all (possibly empty) pieces;
a string with `k` newlines yields `k + 1` pieces. -/
def splitOnNl : List Char → List (List Char)
  | [] => [[]]
  | c :: t =>
    if c = '\n' then [] :: splitOnNl t
    else
      match splitOnNl t with
      | [] => [[c]]
      | p :: ps => (c :: p) :: ps

/-- Strips one trailing carriage return, used for lines terminated by
a newline (Rust's `str::lines` treats `\r\n` as a line ending). -/
def stripCr (l : List Char) : List Char :=
  if l.getLastD ' ' = '\r' then l.dropLast else l

/-- Models Rust's `str::lines`: split at `\n`, strip a `\r` preceding each
`\n`, and do not produce a final empty line for a trailing newline. -/
def textLines (s : List Char) : List (List Char) :=
  let ps := splitOnNl s
  let body := (ps.take (ps.length - 1)).map stripCr
  let last := ps.getLastD []
  if last.isEmpty then body else body ++ [last]

/-- Contribution of one `/proc/swaps` data line to the `(total_size,
total_used)` accumulators of `show_swaps` (src/src/main.rs lines 159-169):
lines with at least 5 whitespace-separated fields contribute fields 3 and 4
parsed as `u64` kibibytes (`unwrap_or(0)` on a failed parse) times 1024, with
the `u64` multiplication wrapping modulo `2 ^ 64`; other lines contribute
nothing. -/
def lineContrib (l : List Char) : ℕ × ℕ :=
  let parts := splitWs l
  if 5 ≤ parts.length then
    (((parseU64 (parts.getD 2 [])).getD 0 * 1024) % 2 ^ 64,
     ((parseU64 (parts.getD 3 [])).getD 0 * 1024) % 2 ^ 64)
  else (0, 0)

/-- Accumulation of `total_size` and `total_used` (in bytes) over the data
lines of `/proc/swaps`, with wrapping `u64` addition as in the source. -/
def showTotals (ls : List (List Char)) : ℕ × ℕ :=
  ls.foldl
    (fun acc l =>
      let c := lineContrib l
      ((acc.1 + c.1) % 2 ^ 64, (acc.2 + c.2) % 2 ^ 64))
    (0, 0)

/-- Totals reported by `show_swaps` for a given `/proc/swaps` text: the first
line is the header (`lines.next()`), the remaining lines are accumulated. -/
def showSwapsPure (text : List Char) : ℕ × ℕ :=
  showTotals ((textLines text).drop 1)

/-- The exact line `set_swap` appends to `/etc/fstab`
(src/src/main.rs lines 297-301), including its trailing newline. -/
def fstabLine : List Char := "/swap-manager.swap none swap sw 0 0\n".data

/-- Models Rust's `str::contains` for a string pattern: `pat` occurs as a
contiguous substring of the haystack. -/
def containsSub (pat : List Char) : List Char → Bool
  | [] => pat.isPrefixOf []
  | c :: t => pat.isPrefixOf (c :: t) || containsSub pat t

/-- Number of occurrences of `pat` in a string, counted by starting
position. -/
def countOccur (pat : List Char) : List Char → ℕ
  | [] => if pat.isPrefixOf [] then 1 else 0
  | c :: t => (if pat.isPrefixOf (c :: t) then 1 else 0) + countOccur pat t

/-- Content transform performed by the persistence step of `set_swap`
(src/src/main.rs lines 295-316) when the open and write succeed: the current
`/etc/fstab` contents (an unreadable file is `unwrap_or_default()`, i.e. empty
content, not an error) keep their value if they already contain the fstab line
as a substring, and get the line appended otherwise. -/
def persistContent (existing : Option (List Char)) : List Char :=
  let e := existing.getD []
  if containsSub fstabLine e then e else e ++ fstabLine

/-- Outcome of `Command::status()`: either the process could not be spawned
(`Err` from `status()`) or it ran and exited with the given code
(`success()` means code 0). -/
inductive SpawnOut where
  | errSpawn
  | exit (code : ℤ)
  deriving DecidableEq, Repr

/-- Top-level error of a run, one constructor per `bail!` / `?`-propagated
error site of `main`, `set_swap`, `empty_swap` and `show_swaps`. -/
inductive Err where
  | notRoot
  | sizeParse (e : ParseErr)
  | setNeedsSize
  | unknownFlag (f : String)
  | misplacedFlag (t : String)
  | unknownCommand (t : String)
  | statusErr (cmd : String)
  | cmdFailed (cmd : String) (code : ℤ)
  | removeFailed
  | readSwapsFailed
  | fstabOpenFailed
  | fstabWriteFailed
  deriving DecidableEq, Repr

/-- Observable external effects of a run, in order of occurrence. -/
inductive Event where
  | printHelp
  | usageHint
  | showRan
  | spawn (cmd : String) (args : List String) (out : SpawnOut)
  | removedFile
  | fstabAppended
  deriving DecidableEq, Repr

/-- Mutable state threaded through a run: the number of subprocesses spawned
so far (indexing into the environment's spawn oracle) and the recorded
events. -/
structure St where
  calls : ℕ
  events : List Event
  deriving DecidableEq, Repr

/-- Environment of a run: the results the operating system gives back for each
capability check, filesystem operation and subprocess spawn.  `spawn` maps the
index of the spawn (0-based, in execution order) and the command to its
outcome, so consecutive invocations of the same utility may behave
differently. -/
structure Env where
  isRoot : Bool
  swapPathExists : Bool
  removeOk : Bool
  procSwaps : Option String
  fstab : Option String
  fstabOpenOk : Bool
  fstabWriteOk : Bool
  spawn : ℕ → String → List String → SpawnOut

/-- Effectful computations of the embedded program: state `St`, errors
`Err`. -/
abbrev M (α : Type) := EStateM Err St α

/-- Records one event. -/
def record (ev : Event) : M Unit := fun st =>
  .ok () (St.mk st.calls (st.events ++ [ev]))

/-- Spawns a subprocess: asks the environment for the outcome of the next
spawn, records it, and returns it.  Models `Command::new(cmd).args(...)
.status()`. -/
def spawnCmd (env : Env) (cmd : String) (args : List String) : M SpawnOut := fun st =>
  .ok (env.spawn st.calls cmd args)
    (St.mk (st.calls + 1) (st.events ++ [Event.spawn cmd args (env.spawn st.calls cmd args)]))

/-- Models the recurring source pattern `let s = Command::new(cmd).status()
.context(..)?; if !s.success() { bail!(..) }`: a spawn failure propagates as
`statusErr`, a non-zero exit as `cmdFailed`. -/
def runChecked (env : Env) (cmd : String) (args : List String) : M Unit :=
  EStateM.bind (spawnCmd env cmd args) fun out =>
    match out with
    | .errSpawn => EStateM.throw (Err.statusErr cmd)
    | .exit c => if c = 0 then EStateM.pure () else EStateM.throw (Err.cmdFailed cmd c)

/-- Models `require_root` (src/src/main.rs lines 115-122). -/
def requireRoot (env : Env) : M Unit :=
  if env.isRoot then EStateM.pure () else EStateM.throw Err.notRoot

/-- The fixed swapfile path (src/src/main.rs line 220). -/
def swapPath : String := "/swap-manager.swap"

/-- Embedding of `set_swap` (src/src/main.rs lines 201-319): root check, size
parse, optional `swapoff -a` (on `--replace`), best-effort disable plus
mandatory delete of a stale swapfile, allocation by two identical `fallocate`
invocations (the first probing spawn-ability via `.status().is_ok()`, the
second deciding success) with a `dd` fallback, best-effort `chmod 600`,
`mkswap`, `swapon`, and the optional idempotent `/etc/fstab` append. -/
def setSwap (env : Env) (sizeTok : String) (replace persist : Bool) : M Unit :=
  EStateM.bind (requireRoot env) fun _ =>
  EStateM.bind
    (match parseHumanSize sizeTok.data with
      | .ok v => EStateM.pure v
      | .error e => EStateM.throw (Err.sizeParse e)) fun sizeBytes =>
  EStateM.bind (if replace then runChecked env "swapoff" ["-a"] else EStateM.pure ()) fun _ =>
  EStateM.bind
    (if env.swapPathExists then
      EStateM.bind (spawnCmd env "swapoff" [swapPath]) fun _ =>
        if env.removeOk then record Event.removedFile else EStateM.throw Err.removeFailed
    else EStateM.pure ()) fun _ =>
  EStateM.bind
    (EStateM.bind (spawnCmd env "fallocate" ["-l", sizeTok, swapPath]) fun out1 =>
      match out1 with
      | .errSpawn => EStateM.pure false
      | .exit _ =>
        EStateM.bind (spawnCmd env "fallocate" ["-l", sizeTok, swapPath]) fun out2 =>
          match out2 with
          | .errSpawn => EStateM.throw (Err.statusErr "fallocate")
          | .exit c => EStateM.pure (c == 0)) fun created =>
  EStateM.bind
    (if created then EStateM.pure ()
    else
      runChecked env "dd"
        ["if=/dev/zero", "of=" ++ swapPath, "bs=1M",
          "count=" ++ toString (((sizeBytes + 1024 * 1024 - 1) % 2 ^ 64) / (1024 * 1024))])
    fun _ =>
  EStateM.bind (spawnCmd env "chmod" ["600", swapPath]) fun _ =>
  EStateM.bind (runChecked env "mkswap" [swapPath]) fun _ =>
  EStateM.bind (runChecked env "swapon" [swapPath]) fun _ =>
  if persist then
    if containsSub fstabLine ((env.fstab.map String.data).getD []) then EStateM.pure ()
    else if env.fstabOpenOk then
      if env.fstabWriteOk then record Event.fstabAppended
      else EStateM.throw Err.fstabWriteFailed
    else EStateM.throw Err.fstabOpenFailed
  else EStateM.pure ()

/-- Embedding of `empty_swap` (src/src/main.rs lines 179-199). -/
def emptySwap (env : Env) : M Unit :=
  EStateM.bind (requireRoot env) fun _ =>
  EStateM.bind (runChecked env "swapoff" ["-a"]) fun _ =>
  runChecked env "swapon" ["-a"]

/-- Embedding of `show_swaps` (src/src/main.rs lines 152-177): a failed read
of `/proc/swaps` aborts; otherwise the swap table is echoed and totalled
(`showSwapsPure`) and the show output is recorded. -/
def showSwaps (env : Env) : M Unit :=
  match env.procSwaps with
  | none => EStateM.throw Err.readSwapsFailed
  | some _ => record Event.showRan

/-- Models Rust's `str::starts_with` for a string pattern. -/
def strStartsWith (s pre : String) : Bool :=
  pre.data.isPrefixOf s.data

/-- Flag collection of the `set` branch (src/src/main.rs lines 90-100):
greedily pop tokens starting with `--`, recognizing exactly `--replace` and
`--persist`; the first other `--`-token is an unknown-flag error.  Returns the
flags (or the offending token) and the remaining queue. -/
def collectFlags : List String → Bool → Bool → Except String (Bool × Bool) × List String
  | [], r, p => (.ok (r, p), [])
  | t :: ts, r, p =>
    if strStartsWith t "--" then
      if t = "--replace" then collectFlags ts true p
      else if t = "--persist" then collectFlags ts r true
      else (.error t, ts)
    else (.ok (r, p), t :: ts)

/-- Decoded first action of the queue. -/
inductive Step where
  | doShow
  | doEmpty
  | doSet (size : String) (replace persist : Bool)
  | failTok (e : Err)

/-- Decodes the action starting at `tok` (the popped front of the queue) and
returns it with the tokens left for later actions, mirroring the `match` of
`main`'s loop (src/src/main.rs lines 76-107). -/
def step1 (tok : String) (q : List String) : Step × List String :=
  if tok = "show" then (.doShow, q)
  else if tok = "empty" then (.doEmpty, q)
  else if tok = "set" then
    match q with
    | [] => (.failTok Err.setNeedsSize, [])
    | sz :: q2 =>
      match collectFlags q2 false false with
      | (.error f, rest) => (.failTok (Err.unknownFlag f), rest)
      | (.ok (r, p), rest) => (.doSet sz r p, rest)
  else if strStartsWith tok "-" then (.failTok (Err.misplacedFlag tok), q)
  else (.failTok (Err.unknownCommand tok), q)

/-- Executes one decoded action. -/
def doStep (env : Env) : Step → M Unit
  | .doShow => showSwaps env
  | .doEmpty => emptySwap env
  | .doSet sz r p => setSwap env sz r p
  | .failTok e => throw e

/-- Embedding of `main`'s token loop (src/src/main.rs lines 76-108): pop the
front token, decode and execute the action, and continue with the remaining
queue; the `?` on every action makes the first failure abort the whole loop.
The inlined `have` proves that a step consumes at least the front token, which
bounds the recursion. -/
def runQueue (env : Env) : List String → M Unit
  | [] => pure ()
  | tok :: q =>
    have h : (step1 tok q).2.length < (tok :: q).length := by
      refine Nat.lt_succ_of_le ?_
      have hcf : ∀ (ts : List String) (r p : Bool),
          (collectFlags ts r p).2.length ≤ ts.length := by
        intro ts
        induction ts with
        | nil => intro r p; simp [collectFlags]
        | cons t ts ih =>
          intro r p
          simp only [collectFlags]
          split
          · split
            · exact Nat.le_succ_of_le (ih _ _)
            · split
              · exact Nat.le_succ_of_le (ih _ _)
              · simp
          · simp
      simp only [step1]
      split
      · simp
      · split
        · simp
        · split
          · match q with
            | [] => simp
            | sz :: q2 =>
              simp only []
              have hb := hcf q2 false false
              rcases hc : collectFlags q2 false false with ⟨res, rest⟩
              rw [hc] at hb
              cases res with
              | error f => simpa using Nat.le_succ_of_le hb
              | ok rp => cases rp with
                | mk r p => simpa using Nat.le_succ_of_le hb
          · split
            · simp
            · simp
    EStateM.bind (doStep env (step1 tok q).1)
      (fun _ => runQueue env (step1 tok q).2)
termination_by l => l.length
decreasing_by exact h

/-- Embedding of `main` (src/src/main.rs lines 52-111).  The clap front end is
out of scope of the specification (it is "a thin front end producing an
ordered list of string tokens"), so it is modelled as passing the raw
command-line tokens after the program name through as the action list.  The
explicit `-h` check of the source (lines 59-65) runs first, on the raw
argument vector, before any token is interpreted. -/
def mainRun (env : Env) (rawArgs : List String) : M Unit :=
  if rawArgs.any (fun a => a == "-h") then record Event.printHelp
  else
    let actions := rawArgs.drop 1
    if actions.isEmpty then record Event.usageHint
    else runQueue env actions

/-- Events of a finished run, whether it succeeded or failed. -/
def finalEvents (r : EStateM.Result Err St Unit) : List Event :=
  match r with
  | .ok _ st => st.events
  | .error _ st => st.events

/-- Scenario environment: root, with the given stale-swapfile existence and
deletion outcome, readable `/proc/swaps` and `/etc/fstab` absent, fstab
writable, and subprocess outcomes given positionally by `outs` (anything past
the end succeeds). -/
def mkEnv (pathExists removeOk : Bool) (outs : List SpawnOut) : Env where
  isRoot := true
  swapPathExists := pathExists
  removeOk := removeOk
  procSwaps := some "Filename Type Size Used Priority\n"
  fstab := none
  fstabOpenOk := true
  fstabWriteOk := true
  spawn := fun i _ _ => outs.getD i (SpawnOut.exit 0)

/-- Default all-succeeding environment. -/
def env0 : Env := mkEnv false true []

/-- Tests whether a character is one of the recognized size suffix letters,
case-insensitively. -/
def isSuffixLetter (c : Char) : Bool :=
  asciiUpper c = 'K' || asciiUpper c = 'M' || asciiUpper c = 'G' || asciiUpper c = 'T'

/-- The magnitude part of a size token: everything before a trailing suffix
letter, or the whole token when the last character is not a suffix letter. -/
def magnitudeOf (s : List Char) : List Char :=
  if isSuffixLetter (s.getLastD '0') then s.dropLast else s

/-- Shape of magnitude strings accepted by Rust's `u64::from_str`: an optional
leading plus sign followed by a non-empty run of ASCII digits. -/
def plusDigits (mg : List Char) : Bool :=
  !(stripPlus mg).isEmpty && (stripPlus mg).all Char.isDigit

/-- Result continuation used to state how `EStateM.bind` evaluates on an
already-computed result. -/
def resBind {α β : Type} (r : EStateM.Result Err St α) (f : α → M β) :
    EStateM.Result Err St β :=
  match r with
  | .ok a s => f a s
  | .error e s => .error e s

theorem resBindOk {α β : Type} (a : α) (s : St) (f : α → M β) :
    resBind (.ok a s) f = f a s := rfl

theorem resBindErr {α β : Type} (e : Err) (s : St) (f : α → M β) :
    resBind (.error e s) f = .error e s := rfl

theorem bindApply {α β : Type} (x : M α) (f : α → M β) (st : St) :
    EStateM.bind x f st = resBind (x st) f := by
  cases h : x st <;> simp [EStateM.bind, resBind, h]

theorem throwApply {α : Type} (e : Err) (st : St) :
    (EStateM.throw e : M α) st = .error e st := rfl

theorem pureApply {α : Type} (a : α) (st : St) :
    (EStateM.pure a : M α) st = .ok a st := rfl

/-- C2: for every token queue, the first action that fails aborts processing
of all remaining queued tokens and no later action runs: the interpreter's
result is exactly the failing action's error and state, the rest of the queue
untouched, while a successful action continues with the remaining queue; in
particular, for the chained actions `["set", "bad", "show"]` run as root, the
run fails with the size-parse error of `set` and the `show` action is never
executed (no show output event is recorded). -/
theorem runQueue_failFast :
    (∀ (env : Env) (tok : String) (q : List String) (st st2 : St) (e : Err),
        doStep env (step1 tok q).1 st = .error e st2 →
        runQueue env (tok :: q) st = .error e st2)
    ∧ (∀ (env : Env) (tok : String) (q : List String) (st : St) (a : Unit) (st2 : St),
        doStep env (step1 tok q).1 st = .ok a st2 →
        runQueue env (tok :: q) st = runQueue env (step1 tok q).2 st2)
    ∧ (∀ env : Env, env.isRoot = true →
        runQueue env ["set", "bad", "show"] (St.mk 0 []) =
          .error (Err.sizeParse ParseErr.unknownSuffix) (St.mk 0 [])
        ∧ Event.showRan ∉ finalEvents (runQueue env ["set", "bad", "show"] (St.mk 0 []))) := by
  refine ⟨?_, ?_, ?_⟩
  · intro env tok q st st2 e h
    rw [runQueue]
    simp [bindApply, h, resBindErr]
  · intro env tok q st a st2 h
    conv_lhs => rw [runQueue]
    simp [bindApply, h, resBindOk]
  · intro env hroot
    have hbad : parseHumanSize "bad".data = .error ParseErr.unknownSuffix := rfl
    have hrun : runQueue env ["set", "bad", "show"] (St.mk 0 []) =
        .error (Err.sizeParse ParseErr.unknownSuffix) (St.mk 0 []) := by
      simp [runQueue, step1, collectFlags, doStep, setSwap, requireRoot, hroot, hbad,
        strStartsWith, bindApply, resBindOk, resBindErr, throwApply, pureApply]
    refine ⟨hrun, ?_⟩
    rw [hrun]
    simp [finalEvents]

theorem runQueue_failFast_witness :
    runQueue env0 ["bogus"] (St.mk 0 []) =
      .error (Err.unknownCommand "bogus") (St.mk 0 [])
    ∧ runQueue env0 ["set", "bad", "show"] (St.mk 0 []) =
      .error (Err.sizeParse ParseErr.unknownSuffix) (St.mk 0 []) :=
  ⟨runQueue_failFast.1 env0 "bogus" [] _ _ _ rfl,
   (runQueue_failFast.2.2 env0 rfl).1⟩

/-- C9: if any raw command-line argument equals `-h`, in any position, the
program prints the long help and exits successfully without touching the
action tokens: the run's only recorded event is the help print, so no
subprocess or filesystem operation happens; in particular for
`swap-manager set 5G -h`. -/
theorem mainRun_help :
    (∀ (env : Env) (rawArgs : List String) (st : St), "-h" ∈ rawArgs →
        mainRun env rawArgs st =
          .ok () (St.mk st.calls (st.events ++ [Event.printHelp])))
    ∧ (∀ env : Env,
        mainRun env ["swap-manager", "set", "5G", "-h"] (St.mk 0 []) =
          .ok () (St.mk 0 [Event.printHelp])) := by
  have main : ∀ (env : Env) (rawArgs : List String) (st : St), "-h" ∈ rawArgs →
      mainRun env rawArgs st = .ok () (St.mk st.calls (st.events ++ [Event.printHelp])) := by
    intro env rawArgs st h
    have hany : rawArgs.any (fun a => a == "-h") = true :=
      List.any_eq_true.mpr ⟨"-h", h, by simp⟩
    simp [mainRun, hany, record]
  exact ⟨main, fun env => main env _ _ (by simp)⟩

theorem mainRun_help_witness :
    mainRun env0 ["swap-manager", "set", "5G", "-h"] (St.mk 0 []) =
      .ok () (St.mk 0 [Event.printHelp]) :=
  mainRun_help.1 env0 ["swap-manager", "set", "5G", "-h"] (St.mk 0 []) (by simp)

/-- C6: in the `set` state machine exactly two steps are best-effort and
non-fatal, and three are fatal: the disable of a stale swapfile before
deletion and the `chmod 600` after allocation may return any outcome
(spawn failure or any exit code) without changing the success of the action,
while a failed deletion aborts with `removeFailed` and a `mkswap` or `swapon`
failure (non-zero exit or spawn failure) aborts with the corresponding
error. -/
theorem setSwap_bestEffort_fatal (sz : String) (v : ℕ)
    (hp : parseHumanSize sz.data = .ok v) :
    (∀ o : SpawnOut,
      setSwap (mkEnv true true [o]) sz false false (St.mk 0 []) =
        .ok () (St.mk 6
          [Event.spawn "swapoff" [swapPath] o,
           Event.removedFile,
           Event.spawn "fallocate" ["-l", sz, swapPath] (SpawnOut.exit 0),
           Event.spawn "fallocate" ["-l", sz, swapPath] (SpawnOut.exit 0),
           Event.spawn "chmod" ["600", swapPath] (SpawnOut.exit 0),
           Event.spawn "mkswap" [swapPath] (SpawnOut.exit 0),
           Event.spawn "swapon" [swapPath] (SpawnOut.exit 0)]))
    ∧ (∀ o : SpawnOut,
      setSwap (mkEnv true true [SpawnOut.exit 0, SpawnOut.exit 0, SpawnOut.exit 0, o])
          sz false false (St.mk 0 []) =
        .ok () (St.mk 6
          [Event.spawn "swapoff" [swapPath] (SpawnOut.exit 0),
           Event.removedFile,
           Event.spawn "fallocate" ["-l", sz, swapPath] (SpawnOut.exit 0),
           Event.spawn "fallocate" ["-l", sz, swapPath] (SpawnOut.exit 0),
           Event.spawn "chmod" ["600", swapPath] o,
           Event.spawn "mkswap" [swapPath] (SpawnOut.exit 0),
           Event.spawn "swapon" [swapPath] (SpawnOut.exit 0)]))
    ∧ (setSwap (mkEnv true false []) sz false false (St.mk 0 []) =
        .error Err.removeFailed
          (St.mk 1 [Event.spawn "swapoff" [swapPath] (SpawnOut.exit 0)]))
    ∧ (∀ c : ℤ, c ≠ 0 →
      setSwap (mkEnv true true
          [SpawnOut.exit 0, SpawnOut.exit 0, SpawnOut.exit 0, SpawnOut.exit 0,
           SpawnOut.exit c]) sz false false (St.mk 0 []) =
        .error (Err.cmdFailed "mkswap" c) (St.mk 5
          [Event.spawn "swapoff" [swapPath] (SpawnOut.exit 0),
           Event.removedFile,
           Event.spawn "fallocate" ["-l", sz, swapPath] (SpawnOut.exit 0),
           Event.spawn "fallocate" ["-l", sz, swapPath] (SpawnOut.exit 0),
           Event.spawn "chmod" ["600", swapPath] (SpawnOut.exit 0),
           Event.spawn "mkswap" [swapPath] (SpawnOut.exit c)]))
    ∧ (setSwap (mkEnv true true
          [SpawnOut.exit 0, SpawnOut.exit 0, SpawnOut.exit 0, SpawnOut.exit 0,
           SpawnOut.errSpawn]) sz false false (St.mk 0 []) =
        .error (Err.statusErr "mkswap") (St.mk 5
          [Event.spawn "swapoff" [swapPath] (SpawnOut.exit 0),
           Event.removedFile,
           Event.spawn "fallocate" ["-l", sz, swapPath] (SpawnOut.exit 0),
           Event.spawn "fallocate" ["-l", sz, swapPath] (SpawnOut.exit 0),
           Event.spawn "chmod" ["600", swapPath] (SpawnOut.exit 0),
           Event.spawn "mkswap" [swapPath] SpawnOut.errSpawn]))
    ∧ (∀ c : ℤ, c ≠ 0 →
      setSwap (mkEnv true true
          [SpawnOut.exit 0, SpawnOut.exit 0, SpawnOut.exit 0, SpawnOut.exit 0,
           SpawnOut.exit 0, SpawnOut.exit c]) sz false false (St.mk 0 []) =
        .error (Err.cmdFailed "swapon" c) (St.mk 6
          [Event.spawn "swapoff" [swapPath] (SpawnOut.exit 0),
           Event.removedFile,
           Event.spawn "fallocate" ["-l", sz, swapPath] (SpawnOut.exit 0),
           Event.spawn "fallocate" ["-l", sz, swapPath] (SpawnOut.exit 0),
           Event.spawn "chmod" ["600", swapPath] (SpawnOut.exit 0),
           Event.spawn "mkswap" [swapPath] (SpawnOut.exit 0),
           Event.spawn "swapon" [swapPath] (SpawnOut.exit c)]))
    ∧ (setSwap (mkEnv true true
          [SpawnOut.exit 0, SpawnOut.exit 0, SpawnOut.exit 0, SpawnOut.exit 0,
           SpawnOut.exit 0, SpawnOut.errSpawn]) sz false false (St.mk 0 []) =
        .error (Err.statusErr "swapon") (St.mk 6
          [Event.spawn "swapoff" [swapPath] (SpawnOut.exit 0),
           Event.removedFile,
           Event.spawn "fallocate" ["-l", sz, swapPath] (SpawnOut.exit 0),
           Event.spawn "fallocate" ["-l", sz, swapPath] (SpawnOut.exit 0),
           Event.spawn "chmod" ["600", swapPath] (SpawnOut.exit 0),
           Event.spawn "mkswap" [swapPath] (SpawnOut.exit 0),
           Event.spawn "swapon" [swapPath] SpawnOut.errSpawn])) := by
  refine ⟨fun o => ?_, fun o => ?_, ?_, fun c hc => ?_, ?_, fun c hc => ?_, ?_⟩ <;>
    simp [setSwap, runChecked, requireRoot, mkEnv, record, spawnCmd,
      bindApply, resBindOk, resBindErr, throwApply, pureApply, hp, *]

theorem setSwap_bestEffort_fatal_witness :
    setSwap (mkEnv true true [SpawnOut.errSpawn]) "1G" false false (St.mk 0 []) =
      .ok () (St.mk 6
        [Event.spawn "swapoff" [swapPath] SpawnOut.errSpawn,
         Event.removedFile,
         Event.spawn "fallocate" ["-l", "1G", swapPath] (SpawnOut.exit 0),
         Event.spawn "fallocate" ["-l", "1G", swapPath] (SpawnOut.exit 0),
         Event.spawn "chmod" ["600", swapPath] (SpawnOut.exit 0),
         Event.spawn "mkswap" [swapPath] (SpawnOut.exit 0),
         Event.spawn "swapon" [swapPath] (SpawnOut.exit 0)])
    ∧ setSwap (mkEnv true true
          [SpawnOut.exit 0, SpawnOut.exit 0, SpawnOut.exit 0, SpawnOut.exit 0,
           SpawnOut.exit 1]) "1G" false false (St.mk 0 []) =
        .error (Err.cmdFailed "mkswap" 1) (St.mk 5
          [Event.spawn "swapoff" [swapPath] (SpawnOut.exit 0),
           Event.removedFile,
           Event.spawn "fallocate" ["-l", "1G", swapPath] (SpawnOut.exit 0),
           Event.spawn "fallocate" ["-l", "1G", swapPath] (SpawnOut.exit 0),
           Event.spawn "chmod" ["600", swapPath] (SpawnOut.exit 0),
           Event.spawn "mkswap" [swapPath] (SpawnOut.exit 1)]) := by
  have hp : parseHumanSize "1G".data = Except.ok (1024 ^ 3) := rfl
  exact ⟨(setSwap_bestEffort_fatal "1G" (1024 ^ 3) hp).1 SpawnOut.errSpawn,
    (setSwap_bestEffort_fatal "1G" (1024 ^ 3) hp).2.2.2.1 1 (by decide)⟩

/-- C10: during allocation in `set`, whenever the first `fallocate` can be
spawned (it exits with any code `c1`), `fallocate` is executed a second time
with identical arguments, and the allocation step's success is judged by the
second invocation's exit status alone: a second exit of 0 skips `dd` (for any
`c1`), a non-zero second exit runs the `dd` fallback, a first spawn failure
skips the second invocation and runs `dd` directly, and a second spawn
failure aborts the action. -/
theorem setSwap_fallocate_twice (sz : String) (v : ℕ)
    (hp : parseHumanSize sz.data = .ok v) :
    (∀ c1 : ℤ,
      setSwap (mkEnv false true [SpawnOut.exit c1]) sz false false (St.mk 0 []) =
        .ok () (St.mk 5
          [Event.spawn "fallocate" ["-l", sz, swapPath] (SpawnOut.exit c1),
           Event.spawn "fallocate" ["-l", sz, swapPath] (SpawnOut.exit 0),
           Event.spawn "chmod" ["600", swapPath] (SpawnOut.exit 0),
           Event.spawn "mkswap" [swapPath] (SpawnOut.exit 0),
           Event.spawn "swapon" [swapPath] (SpawnOut.exit 0)]))
    ∧ (∀ c1 c2 : ℤ, c2 ≠ 0 →
      setSwap (mkEnv false true [SpawnOut.exit c1, SpawnOut.exit c2])
          sz false false (St.mk 0 []) =
        .ok () (St.mk 6
          [Event.spawn "fallocate" ["-l", sz, swapPath] (SpawnOut.exit c1),
           Event.spawn "fallocate" ["-l", sz, swapPath] (SpawnOut.exit c2),
           Event.spawn "dd"
             ["if=/dev/zero", "of=" ++ swapPath, "bs=1M",
              "count=" ++ toString (((v + 1024 * 1024 - 1) % 2 ^ 64) / (1024 * 1024))]
             (SpawnOut.exit 0),
           Event.spawn "chmod" ["600", swapPath] (SpawnOut.exit 0),
           Event.spawn "mkswap" [swapPath] (SpawnOut.exit 0),
           Event.spawn "swapon" [swapPath] (SpawnOut.exit 0)]))
    ∧ (setSwap (mkEnv false true [SpawnOut.errSpawn]) sz false false (St.mk 0 []) =
        .ok () (St.mk 5
          [Event.spawn "fallocate" ["-l", sz, swapPath] SpawnOut.errSpawn,
           Event.spawn "dd"
             ["if=/dev/zero", "of=" ++ swapPath, "bs=1M",
              "count=" ++ toString (((v + 1024 * 1024 - 1) % 2 ^ 64) / (1024 * 1024))]
             (SpawnOut.exit 0),
           Event.spawn "chmod" ["600", swapPath] (SpawnOut.exit 0),
           Event.spawn "mkswap" [swapPath] (SpawnOut.exit 0),
           Event.spawn "swapon" [swapPath] (SpawnOut.exit 0)]))
    ∧ (∀ c1 : ℤ,
      setSwap (mkEnv false true [SpawnOut.exit c1, SpawnOut.errSpawn])
          sz false false (St.mk 0 []) =
        .error (Err.statusErr "fallocate") (St.mk 2
          [Event.spawn "fallocate" ["-l", sz, swapPath] (SpawnOut.exit c1),
           Event.spawn "fallocate" ["-l", sz, swapPath] SpawnOut.errSpawn])) := by
  refine ⟨fun c1 => ?_, fun c1 c2 hc2 => ?_, ?_, fun c1 => ?_⟩ <;>
    simp [setSwap, runChecked, requireRoot, mkEnv, record, spawnCmd,
      bindApply, resBindOk, resBindErr, throwApply, pureApply, hp, *]

theorem setSwap_fallocate_twice_witness :
    setSwap (mkEnv false true [SpawnOut.exit 7]) "1G" false false (St.mk 0 []) =
      .ok () (St.mk 5
        [Event.spawn "fallocate" ["-l", "1G", swapPath] (SpawnOut.exit 7),
         Event.spawn "fallocate" ["-l", "1G", swapPath] (SpawnOut.exit 0),
         Event.spawn "chmod" ["600", swapPath] (SpawnOut.exit 0),
         Event.spawn "mkswap" [swapPath] (SpawnOut.exit 0),
         Event.spawn "swapon" [swapPath] (SpawnOut.exit 0)])
    ∧ setSwap (mkEnv false true [SpawnOut.exit 0, SpawnOut.exit 1])
        "1G" false false (St.mk 0 []) =
      .ok () (St.mk 6
        [Event.spawn "fallocate" ["-l", "1G", swapPath] (SpawnOut.exit 0),
         Event.spawn "fallocate" ["-l", "1G", swapPath] (SpawnOut.exit 1),
         Event.spawn "dd"
           ["if=/dev/zero", "of=" ++ swapPath, "bs=1M",
            "count=" ++ toString (((1024 ^ 3 + 1024 * 1024 - 1) % 2 ^ 64) / (1024 * 1024))]
           (SpawnOut.exit 0),
         Event.spawn "chmod" ["600", swapPath] (SpawnOut.exit 0),
         Event.spawn "mkswap" [swapPath] (SpawnOut.exit 0),
         Event.spawn "swapon" [swapPath] (SpawnOut.exit 0)]) := by
  have hp : parseHumanSize "1G".data = Except.ok (1024 ^ 3) := rfl
  exact ⟨(setSwap_fallocate_twice "1G" (1024 ^ 3) hp).1 7,
    (setSwap_fallocate_twice "1G" (1024 ^ 3) hp).2.1 0 1 (by decide)⟩

theorem toNat_ofNat_valid (n : ℕ) (h : n.isValidChar) : (Char.ofNat n).toNat = n := by
  rw [Char.ofNat, dif_pos h]; rfl

theorem isDigit_iff (c : Char) : c.isDigit = true ↔ 48 ≤ c.toNat ∧ c.toNat ≤ 57 := by
  simp only [Char.isDigit, Char.toNat, UInt32.le_def, Bool.and_eq_true,
    decide_eq_true_iff, BitVec.le_def]
  rfl

theorem asciiUpper_of_digit (c : Char) (h : c.isDigit = true) : asciiUpper c = c := by
  have := (isDigit_iff c).mp h
  unfold asciiUpper
  rw [if_neg]
  omega

theorem asciiUpper_toNat_of_lower (c : Char) (h : 97 ≤ c.toNat ∧ c.toNat ≤ 122) :
    (asciiUpper c).toNat = c.toNat - 32 := by
  unfold asciiUpper
  rw [if_pos h]
  exact toNat_ofNat_valid _ (Or.inl (by omega))

theorem isDigit_asciiUpper (c : Char) (h : (asciiUpper c).isDigit = true) :
    c.isDigit = true := by
  by_cases hl : 97 ≤ c.toNat ∧ c.toNat ≤ 122
  · have h2 := (isDigit_iff _).mp h
    rw [asciiUpper_toNat_of_lower c hl] at h2
    omega
  · unfold asciiUpper at h
    rwa [if_neg hl] at h

theorem asciiUpper_eq_plus (c : Char) (h : asciiUpper c = '+') : c = '+' := by
  by_cases hl : 97 ≤ c.toNat ∧ c.toNat ≤ 122
  · exfalso
    have h2 := congrArg Char.toNat h
    rw [asciiUpper_toNat_of_lower c hl] at h2
    have h3 : ('+').toNat = 43 := rfl
    rw [h3] at h2
    omega
  · unfold asciiUpper at h
    rwa [if_neg hl] at h

theorem map_asciiUpper_digits (ds : List Char) (h : ∀ c ∈ ds, c.isDigit = true) :
    ds.map asciiUpper = ds := by
  induction ds with
  | nil => rfl
  | cons a t ih =>
    simp only [List.map_cons]
    rw [asciiUpper_of_digit a (h a (by simp)), ih (fun c hc => h c (by simp [hc]))]

theorem stripPlus_cons_ne (a : Char) (r : List Char) (ha : a ≠ '+') :
    stripPlus (a :: r) = a :: r := by
  unfold stripPlus
  split
  · rename_i heq
    exact absurd (List.head_eq_of_cons_eq heq.symm).symm ha
  · rfl

theorem parseU64_digits (ds : List Char) (hne : ds ≠ [])
    (hdig : ∀ c ∈ ds, c.isDigit = true) (hlt : digitsVal ds < 2 ^ 64) :
    parseU64 ds = some (digitsVal ds) := by
  have hplus : stripPlus ds = ds := by
    cases ds with
    | nil => rfl
    | cons a t =>
      have ha : a.isDigit = true := hdig a (by simp)
      refine stripPlus_cons_ne a t fun h => ?_
      rw [h] at ha
      exact absurd ha (by decide)
  unfold parseU64
  rw [hplus]
  rw [if_neg (by simp [hne]), if_pos (List.all_eq_true.mpr hdig), if_pos hlt]

theorem parseTail_digits (ds : List Char) (m : ℕ) (hne : ds ≠ [])
    (hdig : ∀ c ∈ ds, c.isDigit = true) (hlt : digitsVal ds < 2 ^ 64)
    (hrange : digitsVal ds * m < 2 ^ 64) :
    parseTail ds m = .ok (digitsVal ds * m) := by
  unfold parseTail
  rw [if_neg (by simp [hne]), parseU64_digits ds hne hdig hlt]
  simp only []
  norm_num at hrange ⊢
  simp [hrange]

theorem parseTail_overflow (ds : List Char) (m : ℕ) (hne : ds ≠ [])
    (hdig : ∀ c ∈ ds, c.isDigit = true) (hlt : digitsVal ds < 2 ^ 64)
    (hov : ¬digitsVal ds * m < 2 ^ 64) :
    parseTail ds m = .error .overflow := by
  unfold parseTail
  rw [if_neg (by simp [hne]), parseU64_digits ds hne hdig hlt]
  simp only []
  norm_num at hov ⊢
  omega

theorem parse_upper_suffix (ds : List Char) (suf : Char) (m : ℕ) (hne : ds ≠ [])
    (hdig : ∀ c ∈ ds, c.isDigit = true) (hlt : digitsVal ds < 2 ^ 64)
    (hrange : digitsVal ds * m < 2 ^ 64)
    (h : (asciiUpper suf = 'K' ∧ m = 1024) ∨ (asciiUpper suf = 'M' ∧ m = 1024 ^ 2)
      ∨ (asciiUpper suf = 'G' ∧ m = 1024 ^ 3) ∨ (asciiUpper suf = 'T' ∧ m = 1024 ^ 4)) :
    parseHumanSize (ds ++ [suf]) = .ok (digitsVal ds * m) := by
  rcases h with ⟨hup, rfl⟩ | ⟨hup, rfl⟩ | ⟨hup, rfl⟩ | ⟨hup, rfl⟩ <;>
    simp [parseHumanSize, List.map_append, map_asciiUpper_digits ds hdig, hup,
      List.getLastD_concat, List.dropLast_concat, hne,
      parseTail_digits ds _ hne hdig hlt hrange] <;>
  · have := parseTail_digits ds _ hne hdig hlt hrange
    norm_num at this ⊢
    exact this

theorem parse_no_suffix (ds : List Char) (hne : ds ≠ [])
    (hdig : ∀ c ∈ ds, c.isDigit = true) (hlt : digitsVal ds < 2 ^ 64) :
    parseHumanSize ds = .ok (digitsVal ds) := by
  rcases List.eq_nil_or_concat ds with rfl | ⟨L, b, rfl⟩
  · exact absurd rfl hne
  · simp only [List.concat_eq_append] at *
    have hb : b.isDigit = true := hdig b (by simp)
    have hK : b ≠ 'K' := fun h => absurd hb (by rw [h]; decide)
    have hM : b ≠ 'M' := fun h => absurd hb (by rw [h]; decide)
    have hG : b ≠ 'G' := fun h => absurd hb (by rw [h]; decide)
    have hT : b ≠ 'T' := fun h => absurd hb (by rw [h]; decide)
    have htail := parseTail_digits (L ++ [b]) 1 hne hdig hlt (by simpa using hlt)
    simp only [Nat.mul_one] at htail
    simp [parseHumanSize, List.map_append, map_asciiUpper_digits _ hdig,
      asciiUpper_of_digit b hb, List.getLastD_concat, hK, hM, hG, hT, hb, htail]

/-- C1: for every valid size token consisting of a non-empty digit string
optionally followed by a single suffix letter `K`, `M`, `G` or `T`
(case-insensitive), `parse_human_size` returns the numeric magnitude
multiplied exactly by the suffix multiplier (`K` = 1024, `M` = 1024²,
`G` = 1024³, `T` = 1024⁴), and by 1 when the last character is a digit;
validity includes the `SizeSpec` invariant that the product fits in 64
bits. -/
theorem parseHumanSize_valid (ds : List Char) (msuf : Option Char) (m : ℕ)
    (hne : ds ≠ []) (hdig : ∀ c ∈ ds, c.isDigit = true)
    (hm : suffixMult msuf = some m) (hrange : digitsVal ds * m < 2 ^ 64) :
    parseHumanSize (ds ++ msuf.toList) = .ok (digitsVal ds * m) := by
  rcases msuf with _ | suf
  · simp only [suffixMult, Option.some.injEq] at hm
    subst hm
    simpa using parse_no_suffix ds hne hdig (by simpa using hrange)
  · simp only [suffixMult] at hm
    by_cases h1 : suf = 'K' ∨ suf = 'k'
    · rw [if_pos h1] at hm
      simp only [Option.some.injEq] at hm
      subst hm
      rcases h1 with rfl | rfl <;>
        exact parse_upper_suffix ds _ _ hne hdig (by omega) hrange (Or.inl ⟨by decide, rfl⟩)
    · rw [if_neg h1] at hm
      by_cases h2 : suf = 'M' ∨ suf = 'm'
      · rw [if_pos h2] at hm
        simp only [Option.some.injEq] at hm
        subst hm
        rcases h2 with rfl | rfl <;>
          exact parse_upper_suffix ds _ _ hne hdig (by omega) hrange
            (Or.inr (Or.inl ⟨by decide, rfl⟩))
      · rw [if_neg h2] at hm
        by_cases h3 : suf = 'G' ∨ suf = 'g'
        · rw [if_pos h3] at hm
          simp only [Option.some.injEq] at hm
          subst hm
          rcases h3 with rfl | rfl <;>
            exact parse_upper_suffix ds _ _ hne hdig (by omega) hrange
              (Or.inr (Or.inr (Or.inl ⟨by decide, rfl⟩)))
        · rw [if_neg h3] at hm
          by_cases h4 : suf = 'T' ∨ suf = 't'
          · rw [if_pos h4] at hm
            simp only [Option.some.injEq] at hm
            subst hm
            rcases h4 with rfl | rfl <;>
              exact parse_upper_suffix ds _ _ hne hdig (by omega) hrange
                (Or.inr (Or.inr (Or.inr ⟨by decide, rfl⟩)))
          · rw [if_neg h4] at hm
            exact absurd hm (by simp)

theorem parseHumanSize_valid_witness :
    parseHumanSize ['5', 'G'] = .ok (5 * 1024 ^ 3)
    ∧ parseHumanSize ['5', '1', '2', 'M'] = .ok (512 * 1024 ^ 2)
    ∧ parseHumanSize ['1', '0', '2', '4'] = .ok 1024 := by
  refine ⟨?_, ?_, ?_⟩
  · exact parseHumanSize_valid ['5'] (some 'G') (1024 ^ 3)
      (by simp) (by decide) (by decide) (by decide)
  · exact parseHumanSize_valid ['5', '1', '2'] (some 'M') (1024 ^ 2)
      (by simp) (by decide) (by decide) (by decide)
  · exact parseHumanSize_valid ['1', '0', '2', '4'] none 1
      (by simp) (by decide) (by decide) (by decide)

theorem parseU64_some_shape (t : List Char) (n : ℕ) (h : parseU64 t = some n) :
    (stripPlus t).isEmpty = false ∧ (stripPlus t).all Char.isDigit = true := by
  simp only [parseU64] at h
  split at h
  · exact absurd h (by simp)
  · split at h
    · rename_i h1 h2
      exact ⟨by simpa using h1, h2⟩
    · exact absurd h (by simp)

theorem all_digits_of_map (t : List Char)
    (h : (t.map asciiUpper).all Char.isDigit = true) : t.all Char.isDigit = true := by
  induction t with
  | nil => rfl
  | cons a r ih =>
    simp only [List.map_cons, List.all_cons, Bool.and_eq_true] at h ⊢
    exact ⟨isDigit_asciiUpper a h.1, ih h.2⟩

theorem plusDigits_of_map (t : List Char)
    (he : (stripPlus (t.map asciiUpper)).isEmpty = false)
    (hd : (stripPlus (t.map asciiUpper)).all Char.isDigit = true) :
    plusDigits t = true := by
  cases t with
  | nil => simp [stripPlus] at he
  | cons a r =>
    simp only [List.map_cons] at he hd
    by_cases hp : asciiUpper a = '+'
    · have ha : a = '+' := asciiUpper_eq_plus a hp
      subst ha
      simp only [hp, stripPlus] at he hd
      unfold plusDigits stripPlus
      simp only [Bool.and_eq_true]
      exact ⟨by simpa using he, all_digits_of_map r hd⟩
    · have ha : a ≠ '+' := fun hh => hp (by rw [hh]; decide)
      rw [stripPlus_cons_ne _ _ hp] at he hd
      unfold plusDigits
      rw [stripPlus_cons_ne _ _ ha]
      simp only [Bool.and_eq_true]
      have hall := all_digits_of_map (a :: r)
      simp only [List.map_cons] at hall
      exact ⟨by simp, hall hd⟩

theorem parseTail_ok_shape (t : List Char) (m : ℕ) (v : ℕ)
    (h : parseTail t m = .ok v) :
    (stripPlus t).isEmpty = false ∧ (stripPlus t).all Char.isDigit = true := by
  simp only [parseTail] at h
  split at h
  · exact absurd h (by simp)
  · split at h
    · exact absurd h (by simp)
    · rename_i n hp64
      exact parseU64_some_shape t n hp64

theorem parseTail_ok_lt (t : List Char) (m v : ℕ) (ht : parseTail t m = .ok v) :
    v < 2 ^ 64 := by
  simp only [parseTail] at ht
  split at ht
  · exact absurd ht (by simp)
  · split at ht
    · exact absurd ht (by simp)
    · split at ht
      · rename_i hcond
        simp only [Except.ok.injEq] at ht
        exact ht ▸ hcond
      · exact absurd ht (by simp)

theorem parse_ok_lt (s : List Char) (v : ℕ) (h : parseHumanSize s = .ok v) :
    v < 2 ^ 64 := by
  simp only [parseHumanSize] at h
  split at h
  · exact absurd h (by simp)
  · split at h
    · exact parseTail_ok_lt _ _ _ h
    · split at h
      · exact parseTail_ok_lt _ _ _ h
      · split at h
        · exact parseTail_ok_lt _ _ _ h
        · split at h
          · exact parseTail_ok_lt _ _ _ h
          · split at h
            · exact parseTail_ok_lt _ _ _ h
            · exact absurd h (by simp)

theorem parse_upper_suffix_overflow (ds : List Char) (suf : Char) (m : ℕ)
    (hne : ds ≠ []) (hdig : ∀ c ∈ ds, c.isDigit = true)
    (hlt : digitsVal ds < 2 ^ 64) (hov : ¬digitsVal ds * m < 2 ^ 64)
    (h : (asciiUpper suf = 'K' ∧ m = 1024) ∨ (asciiUpper suf = 'M' ∧ m = 1024 ^ 2)
      ∨ (asciiUpper suf = 'G' ∧ m = 1024 ^ 3) ∨ (asciiUpper suf = 'T' ∧ m = 1024 ^ 4)) :
    parseHumanSize (ds ++ [suf]) = .error .overflow := by
  rcases h with ⟨hup, rfl⟩ | ⟨hup, rfl⟩ | ⟨hup, rfl⟩ | ⟨hup, rfl⟩ <;>
    simp [parseHumanSize, List.map_append, map_asciiUpper_digits ds hdig, hup,
      List.getLastD_concat, List.dropLast_concat, hne,
      parseTail_overflow ds _ hne hdig hlt hov] <;>
  · have := parseTail_overflow ds _ hne hdig hlt hov
    norm_num at this ⊢
    exact this

/-- C5 (amended): a size token whose magnitude parses as a `u64` but whose
product with the unit multiplier exceeds the unsigned 64-bit range fails with
the distinct overflow error (not the numeric-parse error), and
`parse_human_size` never returns a silently wrapped-around value (every
successful result is below `2 ^ 64`); a magnitude string that itself exceeds
the `u64` range fails earlier, with the numeric-parse error (see the
counterexample). -/
theorem parseHumanSize_overflow :
    (∀ (ds : List Char) (msuf : Option Char) (m : ℕ), ds ≠ [] →
      (∀ c ∈ ds, c.isDigit = true) → suffixMult msuf = some m →
      digitsVal ds < 2 ^ 64 → 2 ^ 64 ≤ digitsVal ds * m →
      parseHumanSize (ds ++ msuf.toList) = .error ParseErr.overflow)
    ∧ ParseErr.overflow ≠ ParseErr.numParse
    ∧ (∀ (s : List Char) (v : ℕ), parseHumanSize s = .ok v → v < 2 ^ 64) := by
  refine ⟨?_, by decide, parse_ok_lt⟩
  intro ds msuf m hne hdig hm hlt hov
  have hov2 : ¬digitsVal ds * m < 2 ^ 64 := by omega
  rcases msuf with _ | suf
  · simp only [suffixMult, Option.some.injEq] at hm
    subst hm
    omega
  · simp only [suffixMult] at hm
    by_cases h1 : suf = 'K' ∨ suf = 'k'
    · rw [if_pos h1] at hm
      simp only [Option.some.injEq] at hm
      subst hm
      rcases h1 with rfl | rfl <;>
        exact parse_upper_suffix_overflow ds _ _ hne hdig hlt hov2 (Or.inl ⟨by decide, rfl⟩)
    · rw [if_neg h1] at hm
      by_cases h2 : suf = 'M' ∨ suf = 'm'
      · rw [if_pos h2] at hm
        simp only [Option.some.injEq] at hm
        subst hm
        rcases h2 with rfl | rfl <;>
          exact parse_upper_suffix_overflow ds _ _ hne hdig hlt hov2
            (Or.inr (Or.inl ⟨by decide, rfl⟩))
      · rw [if_neg h2] at hm
        by_cases h3 : suf = 'G' ∨ suf = 'g'
        · rw [if_pos h3] at hm
          simp only [Option.some.injEq] at hm
          subst hm
          rcases h3 with rfl | rfl <;>
            exact parse_upper_suffix_overflow ds _ _ hne hdig hlt hov2
              (Or.inr (Or.inr (Or.inl ⟨by decide, rfl⟩)))
        · rw [if_neg h3] at hm
          by_cases h4 : suf = 'T' ∨ suf = 't'
          · rw [if_pos h4] at hm
            simp only [Option.some.injEq] at hm
            subst hm
            rcases h4 with rfl | rfl <;>
              exact parse_upper_suffix_overflow ds _ _ hne hdig hlt hov2
                (Or.inr (Or.inr (Or.inr ⟨by decide, rfl⟩)))
          · rw [if_neg h4] at hm
            exact absurd hm (by simp)

/-- C5, counterexample to the claim as stated: the all-digit token
`18446744073709551616` has magnitude `2 ^ 64` and multiplier 1, so its product
exceeds the unsigned 64-bit range, yet `parse_human_size` fails with the
numeric-parse error (the `u64` parse itself overflows), not the overflow
error. -/
theorem parseHumanSize_overflow_counterexample :
    parseHumanSize "18446744073709551616".data = .error ParseErr.numParse
    ∧ ParseErr.numParse ≠ ParseErr.overflow
    ∧ (∀ c ∈ "18446744073709551616".data, c.isDigit = true)
    ∧ 2 ^ 64 ≤ digitsVal "18446744073709551616".data * 1 :=
  ⟨rfl, by decide, by decide, by decide⟩

theorem parseHumanSize_overflow_witness :
    parseHumanSize ['1', '6', '7', '7', '7', '2', '1', '6', 'T'] =
      .error ParseErr.overflow :=
  parseHumanSize_overflow.1 ['1', '6', '7', '7', '7', '2', '1', '6'] (some 'T')
    (1024 ^ 4) (by simp) (by decide) (by decide) (by decide) (by decide)

theorem parse_ok_shape (s : List Char) (v : ℕ) (h : parseHumanSize s = .ok v) :
    plusDigits (magnitudeOf s) = true := by
  rcases List.eq_nil_or_concat s with rfl | ⟨L, b, rfl⟩
  · exact absurd h (by simp [parseHumanSize])
  · simp only [List.concat_eq_append] at *
    simp only [parseHumanSize, List.map_append, List.map_cons, List.map_nil,
      List.getLastD_concat, List.dropLast_concat] at h
    rw [if_neg (by simp)] at h
    by_cases h1 : asciiUpper b = 'K'
    · rw [if_pos h1] at h
      have hsuf : isSuffixLetter b = true := by
        simp [isSuffixLetter, h1]
      obtain ⟨he, hd⟩ := parseTail_ok_shape _ _ _ h
      simp only [magnitudeOf, List.getLastD_concat, hsuf, if_pos,
        List.dropLast_concat]
      exact plusDigits_of_map L he hd
    · rw [if_neg h1] at h
      by_cases h2 : asciiUpper b = 'M'
      · rw [if_pos h2] at h
        have hsuf : isSuffixLetter b = true := by
          simp [isSuffixLetter, h2]
        obtain ⟨he, hd⟩ := parseTail_ok_shape _ _ _ h
        simp only [magnitudeOf, List.getLastD_concat, hsuf, if_pos,
          List.dropLast_concat]
        exact plusDigits_of_map L he hd
      · rw [if_neg h2] at h
        by_cases h3 : asciiUpper b = 'G'
        · rw [if_pos h3] at h
          have hsuf : isSuffixLetter b = true := by
            simp [isSuffixLetter, h3]
          obtain ⟨he, hd⟩ := parseTail_ok_shape _ _ _ h
          simp only [magnitudeOf, List.getLastD_concat, hsuf, if_pos,
            List.dropLast_concat]
          exact plusDigits_of_map L he hd
        · rw [if_neg h3] at h
          by_cases h4 : asciiUpper b = 'T'
          · rw [if_pos h4] at h
            have hsuf : isSuffixLetter b = true := by
              simp [isSuffixLetter, h4]
            obtain ⟨he, hd⟩ := parseTail_ok_shape _ _ _ h
            simp only [magnitudeOf, List.getLastD_concat, hsuf, if_pos,
              List.dropLast_concat]
            exact plusDigits_of_map L he hd
          · rw [if_neg h4] at h
            by_cases h5 : (asciiUpper b).isDigit = true
            · rw [if_pos h5] at h
              rw [show [asciiUpper b] = List.map asciiUpper [b] from rfl,
                ← List.map_append] at h
              have hsuf : isSuffixLetter b = false := by
                simp [isSuffixLetter, h1, h2, h3, h4]
              obtain ⟨he, hd⟩ := parseTail_ok_shape _ _ _ h
              simp only [magnitudeOf, List.getLastD_concat, hsuf,
                Bool.false_eq_true, if_false]
              exact plusDigits_of_map (L ++ [b]) he hd
            · rw [if_neg h5] at h
              exact absurd h (by simp)

/-- C8 (amended): `parse_human_size` succeeds only on tokens whose magnitude
string (the token minus an optional single trailing suffix letter) is
non-empty and consists of an optional leading plus sign followed only of
ASCII digits — Rust's `u64::from_str` accepts the sign, so the all-digit
phrasing of the original claim is too strict (see the counterexample) — and
on the tokens `""`, `"5X"` and `"G"` it returns the empty-size,
unknown-suffix and malformed errors respectively, rather than panicking. -/
theorem parseHumanSize_shape :
    (∀ (s : List Char) (v : ℕ), parseHumanSize s = .ok v →
      plusDigits (magnitudeOf s) = true)
    ∧ parseHumanSize [] = .error ParseErr.emptySize
    ∧ parseHumanSize ['5', 'X'] = .error ParseErr.unknownSuffix
    ∧ parseHumanSize ['G'] = .error ParseErr.malformed :=
  ⟨parse_ok_shape, rfl, rfl, rfl⟩

/-- C8, counterexample to the claim as stated: `parse_human_size` accepts
`"+5"` although its magnitude string contains the non-digit `+` (Rust's
`u64::from_str` allows an optional leading plus sign). -/
theorem parseHumanSize_shape_counterexample :
    parseHumanSize ['+', '5'] = .ok 5 ∧ ('+').isDigit = false :=
  ⟨rfl, by decide⟩

theorem parseHumanSize_shape_witness :
    plusDigits (magnitudeOf ['5', 'G']) = true :=
  parseHumanSize_shape.1 ['5', 'G'] (5 * 1024 ^ 3)
    (show parseHumanSize ['5', 'G'] = .ok (5 * 1024 ^ 3) from rfl)

theorem rneInt_ge_floor (q : ℚ) : Int.floor q ≤ rneInt q := by
  simp only [rneInt]
  split
  · exact le_refl _
  · split
    · omega
    · split
      · exact le_refl _
      · omega

theorem toF64_of_lt (n : ℕ) (h : n < 2 ^ 53) : toF64 n = (n : ℚ) := by
  unfold toF64
  rw [if_pos h]

theorem toF64_large_ge (n : ℕ) (h : 2 ^ 53 ≤ n) : (2 ^ 52 : ℚ) ≤ toF64 n := by
  unfold toF64
  rw [if_neg (by omega)]
  have hn0 : n ≠ 0 := by omega
  have hlog : 53 ≤ n.log2 := (Nat.le_log2 hn0).mpr h
  have hpow : (2 : ℕ) ^ n.log2 ≤ n := Nat.log2_self_le hn0
  set e : ℕ := n.log2 - 52 with he
  have hq : (2 ^ 52 : ℚ) ≤ (n : ℚ) / 2 ^ e := by
    rw [le_div_iff₀ (by positivity)]
    have h2 : (2 : ℚ) ^ 52 * 2 ^ e = 2 ^ n.log2 := by
      rw [← pow_add]
      congr 1
      omega
    rw [h2]
    exact_mod_cast hpow
  have hfl : (2 ^ 52 : ℤ) ≤ Int.floor ((n : ℚ) / 2 ^ e) := by
    rw [Int.le_floor]
    exact_mod_cast hq
  have hrne : (2 ^ 52 : ℤ) ≤ rneInt ((n : ℚ) / 2 ^ e) :=
    le_trans hfl (rneInt_ge_floor _)
  have hrneq : (2 ^ 52 : ℚ) ≤ (rneInt ((n : ℚ) / 2 ^ e) : ℚ) := by exact_mod_cast hrne
  have h2e : (1 : ℚ) ≤ 2 ^ e := one_le_pow₀ (by norm_num)
  calc (2 ^ 52 : ℚ) = 2 ^ 52 * 1 := (mul_one _).symm
    _ ≤ (rneInt ((n : ℚ) / 2 ^ e) : ℚ) * 2 ^ e :=
        mul_le_mul hrneq h2e (by norm_num) (le_trans (by norm_num) hrneq)

theorem hrbStep_go (v : ℚ) (i : ℕ) (h1 : 1024 ≤ v) (h2 : i + 1 < 5) :
    hrbStep (v, i) = (v / 1024, i + 1) := by
  simp [hrbStep, h1, h2]

theorem hrbStep_stopVal (v : ℚ) (i : ℕ) (h1 : ¬1024 ≤ v) :
    hrbStep (v, i) = (v, i) := by
  simp [hrbStep, h1]

theorem hrbStep_stopIdx (v : ℚ) : hrbStep (v, 4) = (v, 4) := by
  simp [hrbStep]

theorem hrb_bytes (n : ℕ) (h : n < 1024) :
    humanReadableBytes n = toString n ++ " B" := by
  have hv : ¬(1024 : ℚ) ≤ (n : ℚ) := by
    push_neg
    exact_mod_cast h
  have ht : toF64 n = (n : ℚ) := toF64_of_lt n (by omega)
  unfold humanReadableBytes
  rw [ht, hrbStep_stopVal _ _ hv, hrbStep_stopVal _ _ hv, hrbStep_stopVal _ _ hv,
    hrbStep_stopVal _ _ hv]
  simp [unitsList]
  rw [String.append_assoc]
  rfl

theorem hrb_kib (n : ℕ) (h1 : 1024 ≤ n) (h2 : n < 1024 ^ 2) :
    humanReadableBytes n = fmt2 ((n : ℚ) / 1024) ++ " KiB" := by
  have ht : toF64 n = (n : ℚ) := toF64_of_lt n (by omega)
  have c0 : (1024 : ℚ) ≤ (n : ℚ) := by exact_mod_cast h1
  have c1 : ¬(1024 : ℚ) ≤ (n : ℚ) / 1024 := by
    rw [le_div_iff₀ (by norm_num)]
    push_neg
    exact_mod_cast (by omega : n < 1024 * 1024)
  unfold humanReadableBytes
  rw [ht, hrbStep_go _ _ c0 (by norm_num), hrbStep_stopVal _ _ c1,
    hrbStep_stopVal _ _ c1, hrbStep_stopVal _ _ c1]
  simp [unitsList]
  rw [String.append_assoc]
  rfl

theorem hrb_mib (n : ℕ) (h1 : 1024 ^ 2 ≤ n) (h2 : n < 1024 ^ 3) :
    humanReadableBytes n = fmt2 ((n : ℚ) / 1024 ^ 2) ++ " MiB" := by
  have ht : toF64 n = (n : ℚ) := toF64_of_lt n (by omega)
  have c0 : (1024 : ℚ) ≤ (n : ℚ) := by
    have : (1024 : ℕ) ≤ n := by omega
    exact_mod_cast this
  have c1 : (1024 : ℚ) ≤ (n : ℚ) / 1024 := by
    rw [le_div_iff₀ (by norm_num)]
    exact_mod_cast (by omega : 1024 * 1024 ≤ n)
  have c2 : ¬(1024 : ℚ) ≤ (n : ℚ) / 1024 / 1024 := by
    rw [div_div, le_div_iff₀ (by norm_num)]
    push_neg
    exact_mod_cast (by omega : n < 1024 * (1024 * 1024))
  have hval : (n : ℚ) / 1024 / 1024 = (n : ℚ) / 1024 ^ 2 := by
    rw [div_div]
    norm_num
  unfold humanReadableBytes
  rw [ht, hrbStep_go _ _ c0 (by norm_num), hrbStep_go _ _ c1 (by norm_num),
    hrbStep_stopVal _ _ c2, hrbStep_stopVal _ _ c2]
  simp only [unitsList, List.getD]
  rw [hval]
  simp
  rw [String.append_assoc]
  rfl

theorem hrb_gib (n : ℕ) (h1 : 1024 ^ 3 ≤ n) (h2 : n < 1024 ^ 4) :
    humanReadableBytes n = fmt2 ((n : ℚ) / 1024 ^ 3) ++ " GiB" := by
  have ht : toF64 n = (n : ℚ) := toF64_of_lt n (by omega)
  have c0 : (1024 : ℚ) ≤ (n : ℚ) := by
    have : (1024 : ℕ) ≤ n := by omega
    exact_mod_cast this
  have c1 : (1024 : ℚ) ≤ (n : ℚ) / 1024 := by
    rw [le_div_iff₀ (by norm_num)]
    exact_mod_cast (by omega : 1024 * 1024 ≤ n)
  have c2 : (1024 : ℚ) ≤ (n : ℚ) / 1024 / 1024 := by
    rw [div_div, le_div_iff₀ (by norm_num)]
    exact_mod_cast (by omega : 1024 * (1024 * 1024) ≤ n)
  have c3 : ¬(1024 : ℚ) ≤ (n : ℚ) / 1024 / 1024 / 1024 := by
    rw [div_div, div_div, le_div_iff₀ (by norm_num)]
    push_neg
    exact_mod_cast (by omega : n < 1024 * (1024 * (1024 * 1024)))
  have hval : (n : ℚ) / 1024 / 1024 / 1024 = (n : ℚ) / 1024 ^ 3 := by
    rw [div_div, div_div]
    norm_num
  unfold humanReadableBytes
  rw [ht, hrbStep_go _ _ c0 (by norm_num), hrbStep_go _ _ c1 (by norm_num),
    hrbStep_go _ _ c2 (by norm_num), hrbStep_stopVal _ _ c3]
  simp only [unitsList, List.getD]
  rw [hval]
  simp
  rw [String.append_assoc]
  rfl

theorem hrb_tib (n : ℕ) (h1 : 1024 ^ 4 ≤ n) :
    humanReadableBytes n = fmt2 (toF64 n / 1024 ^ 4) ++ " TiB" := by
  have hv4 : (1024 ^ 4 : ℚ) ≤ toF64 n := by
    by_cases hc : n < 2 ^ 53
    · rw [toF64_of_lt n hc]
      exact_mod_cast h1
    · refine le_trans (by norm_num) (toF64_large_ge n (by omega))
  have c0 : (1024 : ℚ) ≤ toF64 n := le_trans (by norm_num) hv4
  have c1 : (1024 : ℚ) ≤ toF64 n / 1024 := by
    rw [le_div_iff₀ (by norm_num)]
    exact le_trans (by norm_num) hv4
  have c2 : (1024 : ℚ) ≤ toF64 n / 1024 / 1024 := by
    rw [div_div, le_div_iff₀ (by norm_num)]
    exact le_trans (by norm_num) hv4
  have c3 : (1024 : ℚ) ≤ toF64 n / 1024 / 1024 / 1024 := by
    rw [div_div, div_div, le_div_iff₀ (by norm_num)]
    exact le_trans (by norm_num) hv4
  have hval : toF64 n / 1024 / 1024 / 1024 / 1024 = toF64 n / 1024 ^ 4 := by
    rw [div_div, div_div, div_div]
    norm_num
  unfold humanReadableBytes
  rw [hrbStep_go _ _ c0 (by norm_num), hrbStep_go _ _ c1 (by norm_num),
    hrbStep_go _ _ c2 (by norm_num), hrbStep_go _ _ c3 (by norm_num)]
  simp only [unitsList, List.getD]
  rw [hval]
  simp
  rw [String.append_assoc]
  rfl

/-- C4 (amended): for every byte count `n`, `human_readable_bytes` selects
the smallest unit among B/KiB/MiB/GiB/TiB whose scaled value is below 1024,
falling back to TiB when even the TiB-scaled value is at least 1024
(`n ≥ 1024 ^ 5`); the value is formatted with two decimal places (`fmt2` of
the exact scaled value, which equals the true ratio `n / 1024 ^ k` for all
`n < 2 ^ 53` and is the 53-bit rounding `toF64 n` of it beyond) except when
the unit is plain bytes, where the integer is printed without decimals; in
particular 0, 1023, 1024 and 1536 format as the specification lists. -/
theorem humanReadableBytes_spec (n : ℕ) :
    (n < 1024 → humanReadableBytes n = toString n ++ " B")
    ∧ (1024 ≤ n → n < 1024 ^ 2 →
        humanReadableBytes n = fmt2 ((n : ℚ) / 1024) ++ " KiB")
    ∧ (1024 ^ 2 ≤ n → n < 1024 ^ 3 →
        humanReadableBytes n = fmt2 ((n : ℚ) / 1024 ^ 2) ++ " MiB")
    ∧ (1024 ^ 3 ≤ n → n < 1024 ^ 4 →
        humanReadableBytes n = fmt2 ((n : ℚ) / 1024 ^ 3) ++ " GiB")
    ∧ (1024 ^ 4 ≤ n → humanReadableBytes n = fmt2 (toF64 n / 1024 ^ 4) ++ " TiB")
    ∧ humanReadableBytes 0 = "0 B"
    ∧ humanReadableBytes 1023 = "1023 B"
    ∧ humanReadableBytes 1024 = "1.00 KiB"
    ∧ humanReadableBytes 1536 = "1.50 KiB" := by
  refine ⟨hrb_bytes n, hrb_kib n, hrb_mib n, hrb_gib n, hrb_tib n, ?_, ?_, ?_, ?_⟩
  · norm_num [humanReadableBytes, hrbStep, toF64, unitsList]
    rfl
  · norm_num [humanReadableBytes, hrbStep, toF64, unitsList]
    rfl
  · norm_num [humanReadableBytes, hrbStep, toF64, unitsList, fmt2]
    rfl
  · norm_num [humanReadableBytes, hrbStep, toF64, unitsList, fmt2]
    rfl

/-- C4, counterexample to the claim as stated: the claim asks for the largest
unit whose scaled value is below 1024, but 1536 is printed as KiB although
the larger unit TiB also scales it below 1024; and at `1024 ^ 5` the selected
unit TiB has a scaled value of 1024, not below 1024, so no unit satisfying
the stated condition is selected at all. -/
theorem humanReadableBytes_counterexample :
    humanReadableBytes 1536 = "1.50 KiB" ∧ (1536 : ℚ) / 1024 ^ 4 < 1024
    ∧ humanReadableBytes (1024 ^ 5) = "1024.00 TiB"
    ∧ ¬(1024 ^ 5 : ℚ) / 1024 ^ 4 < 1024 := by
  refine ⟨?_, by norm_num, ?_, by norm_num⟩
  · norm_num [humanReadableBytes, hrbStep, toF64, unitsList, fmt2]
    rfl
  · norm_num [humanReadableBytes, hrbStep, toF64, unitsList, fmt2]
    rfl

theorem humanReadableBytes_spec_witness :
    humanReadableBytes (5 * 1024 ^ 3) =
      fmt2 (((5 * 1024 ^ 3 : ℕ) : ℚ) / 1024 ^ 3) ++ " GiB"
    ∧ humanReadableBytes 2048 = fmt2 (((2048 : ℕ) : ℚ) / 1024) ++ " KiB" :=
  ⟨(humanReadableBytes_spec (5 * 1024 ^ 3)).2.2.2.1 (by norm_num) (by norm_num),
   (humanReadableBytes_spec 2048).2.1 (by norm_num) (by norm_num)⟩

theorem isPrefixOf_false_of_short (pat t : List Char) (h : t.length < pat.length) :
    pat.isPrefixOf t = false := by
  by_contra hc
  have hp : pat <+: t := by
    rw [← List.isPrefixOf_iff_prefix]
    simpa using hc
  exact absurd hp.length_le (by omega)

theorem fstabLine_length : fstabLine.length = 36 := by decide

theorem countOccur_short (t : List Char) (h : t.length < fstabLine.length) :
    countOccur fstabLine t = 0 := by
  induction t with
  | nil =>
    unfold countOccur
    rw [List.isPrefixOf_length_pos_nil (by rw [fstabLine_length]; omega)]
    simp
  | cons a r ih =>
    unfold countOccur
    rw [isPrefixOf_false_of_short _ _ h]
    simp only [List.length_cons] at h
    simp [ih (by omega)]

theorem fstabLine_noBorder :
    ∀ k, k < 36 → 0 < k → fstabLine.drop k ≠ fstabLine.take (36 - k) := by
  decide

theorem fstabLine_not_prefix_append (t : List Char) (hne : t ≠ [])
    (hf : fstabLine.isPrefixOf t = false) :
    fstabLine.isPrefixOf (t ++ fstabLine) = false := by
  by_contra hc
  have hp : fstabLine <+: t ++ fstabLine := by
    rw [← List.isPrefixOf_iff_prefix]
    simpa using hc
  have htake := List.prefix_iff_eq_take.mp hp
  rw [List.take_append_eq_append_take, fstabLine_length] at htake
  by_cases hlen : 36 ≤ t.length
  · rw [Nat.sub_eq_zero_of_le hlen] at htake
    simp only [List.take_zero, List.append_nil] at htake
    have hpt : fstabLine <+: t := by
      rw [htake]
      exact List.take_prefix 36 t
    have := List.isPrefixOf_iff_prefix.mpr hpt
    rw [hf] at this
    exact Bool.noConfusion this
  · push_neg at hlen
    have htk : t.take 36 = t := List.take_of_length_le (by omega)
    rw [htk] at htake
    have hdrop := congrArg (List.drop t.length) htake
    rw [List.drop_left] at hdrop
    have hk1 : 0 < t.length := List.length_pos.mpr hne
    have hrest : fstabLine.drop t.length = fstabLine.take (36 - t.length) := by
      simpa using hdrop
    exact absurd hrest (fstabLine_noBorder t.length hlen hk1)

theorem countOccur_append_self :
    ∀ c : List Char, countOccur fstabLine c = 0 →
      countOccur fstabLine (c ++ fstabLine) = 1 := by
  intro c
  induction c with
  | nil =>
    intro _
    simp only [List.nil_append]
    decide
  | cons a r ih =>
    intro h
    unfold countOccur at h
    have hsplit := Nat.add_eq_zero.mp h
    have hpf : fstabLine.isPrefixOf (a :: r) = false := by
      rcases hsplit with ⟨h1, _⟩
      by_contra hcc
      simp only [Bool.not_eq_false] at hcc
      rw [hcc] at h1
      simp at h1
    have hrest : countOccur fstabLine r = 0 := hsplit.2
    have hnp := fstabLine_not_prefix_append (a :: r) (by simp) hpf
    rw [List.cons_append]
    unfold countOccur
    rw [← List.cons_append, hnp]
    simp [ih hrest]

theorem containsSub_iff_countOccur (pat hay : List Char) :
    containsSub pat hay = true ↔ 0 < countOccur pat hay := by
  induction hay with
  | nil =>
    unfold containsSub countOccur
    split <;> simp_all
  | cons a r ih =>
    unfold containsSub countOccur
    rw [Bool.or_eq_true, ih]
    cases hca : pat.isPrefixOf (a :: r) with
    | false => simp
    | true => simp

/-- C3: persisting the same swapfile path twice is idempotent: if the exact
fstab line already occurs as a substring of the current `/etc/fstab` contents
the persist step performs no mutation; starting from contents that do not
contain the line, appending it via the persist step twice leaves the content
of the first append unchanged and the line occurs exactly once (the line has
no border, so no overlapped occurrence can arise at the boundary); and an
unreadable fstab is treated exactly like empty content, not an error. -/
theorem persistContent_idempotent :
    (∀ c : List Char, containsSub fstabLine c = true → persistContent (some c) = c)
    ∧ (∀ c : List Char, countOccur fstabLine c = 0 →
        persistContent (some (persistContent (some c))) = persistContent (some c)
        ∧ countOccur fstabLine (persistContent (some (persistContent (some c)))) = 1)
    ∧ persistContent none = persistContent (some []) := by
  refine ⟨?_, ?_, rfl⟩
  · intro c h
    simp [persistContent, h]
  · intro c h
    have hfalse : containsSub fstabLine c = false := by
      by_contra hcc
      simp only [Bool.not_eq_false] at hcc
      have := (containsSub_iff_countOccur fstabLine c).mp hcc
      omega
    have hp1 : persistContent (some c) = c ++ fstabLine := by
      simp [persistContent, hfalse]
    have hcount : countOccur fstabLine (c ++ fstabLine) = 1 :=
      countOccur_append_self c h
    have hcontains : containsSub fstabLine (c ++ fstabLine) = true :=
      (containsSub_iff_countOccur fstabLine (c ++ fstabLine)).mpr (by omega)
    have hp2 : persistContent (some (c ++ fstabLine)) = c ++ fstabLine := by
      simp [persistContent, hcontains]
    rw [hp1, hp2]
    exact ⟨rfl, hcount⟩

theorem persistContent_idempotent_witness :
    persistContent (some (persistContent (some []))) = persistContent (some [])
    ∧ countOccur fstabLine (persistContent (some (persistContent (some [])))) = 1 :=
  persistContent_idempotent.2.1 [] (by decide)

theorem showTotals_fold (ls : List (List Char)) :
    ∀ a b : ℕ, a < 2 ^ 64 → b < 2 ^ 64 →
      ls.foldl
        (fun acc l =>
          let c := lineContrib l
          ((acc.1 + c.1) % 2 ^ 64, (acc.2 + c.2) % 2 ^ 64)) (a, b) =
      ((a + (ls.map (fun l => (lineContrib l).1)).sum) % 2 ^ 64,
       (b + (ls.map (fun l => (lineContrib l).2)).sum) % 2 ^ 64) := by
  induction ls with
  | nil =>
    intro a b ha hb
    simp only [List.foldl_nil, List.map_nil, List.sum_nil, Nat.add_zero]
    rw [Nat.mod_eq_of_lt ha, Nat.mod_eq_of_lt hb]
  | cons l t ih =>
    intro a b ha hb
    simp only [List.foldl_cons, List.map_cons, List.sum_cons]
    rw [ih _ _ (Nat.mod_lt _ (by norm_num)) (Nat.mod_lt _ (by norm_num))]
    rw [Prod.mk.injEq]
    constructor <;> omega

/-- C7: `show` accumulates the total size and total used bytes from
columns 3 and 4 of every well-formed line (at least 5 whitespace-separated
fields), interpreted as kibibytes and converted to bytes (the totals are the
per-line contributions summed with wrapping 64-bit arithmetic), treating
malformed per-field numeric values as zero rather than aborting; for a table
with one well-formed line of size 1048576 KiB and used 0 KiB, the reported
total is `1.00 GiB` and the reported used is `0 B`. -/
theorem showTotals_spec :
    (∀ ls : List (List Char),
      showTotals ls =
        ((ls.map (fun l => (lineContrib l).1)).sum % 2 ^ 64,
         (ls.map (fun l => (lineContrib l).2)).sum % 2 ^ 64))
    ∧ showSwapsPure
        "Filename Type Size Used Priority\n/swap-manager.swap file 1048576 0 -2\n".data
        = (2 ^ 30, 0)
    ∧ humanReadableBytes (2 ^ 30) = "1.00 GiB"
    ∧ humanReadableBytes 0 = "0 B"
    ∧ lineContrib "/swap-manager.swap file abc xyz -2".data = (0, 0)
    ∧ (splitWs "/swap-manager.swap file abc xyz -2".data).length = 5 := by
  refine ⟨?_, rfl, ?_, ?_, rfl, rfl⟩
  · intro ls
    unfold showTotals
    rw [showTotals_fold ls 0 0 (by norm_num) (by norm_num)]
    simp
  · norm_num [humanReadableBytes, hrbStep, toF64, unitsList, fmt2]
    rfl
  · norm_num [humanReadableBytes, hrbStep, toF64, unitsList]
    rfl

theorem showTotals_spec_witness :
    showTotals ["/swap-manager.swap file 1048576 0 -2".data] =
      (((["/swap-manager.swap file 1048576 0 -2".data].map
          (fun l => (lineContrib l).1)).sum % 2 ^ 64),
       ((["/swap-manager.swap file 1048576 0 -2".data].map
          (fun l => (lineContrib l).2)).sum % 2 ^ 64)) :=
  showTotals_spec.1 ["/swap-manager.swap file 1048576 0 -2".data]
